import Mathlib

/-!
# go-reloadr: the watch, debounce, build, kill, run core

A shallow embedding of `reloadr/reloadr.go`.

* Go strings are lists of symbols; only equality of symbols is ever used.
* Clock readings (`time.Now()`) are natural numbers of nanoseconds since the Unix epoch;
  a `time.Time` value is an integer number of nanoseconds on the same axis, so that the
  zero `time.Time` (1 January of year 1) is a negative number.
* The backends (the `go install` command, `Process.Kill`, `exec.Cmd.Start`, the fsnotify
  watcher) are not code of the repository: their outcomes are inputs of the model.
* `close` of a closed channel panics in Go: the model carries the panic explicitly.
-/

namespace Reloadr

/-! ## Strings and fsnotify events -/

/-- A Go string. -/
abbrev GoString := List Char

/-- The function `strings.HasSuffix(s, suffix)`:
`len(s) >= len(suffix) && s[len(s)-len(suffix):] == suffix`. -/
def HasSuffix (s suffix : GoString) : Bool :=
  decide (suffix.length ≤ s.length) && (s.drop (s.length - suffix.length) == suffix)

/-- The bit `fsnotify.Create` of an `fsnotify.Op` (`1 << iota`). -/
def Create : Nat := 1
/-- The bit `fsnotify.Write`. -/
def Write : Nat := 2
/-- The bit `fsnotify.Remove`. -/
def Remove : Nat := 4
/-- The bit `fsnotify.Rename`. -/
def Rename : Nat := 8
/-- The bit `fsnotify.Chmod`. -/
def Chmod : Nat := 16

/-- An `fsnotify.Event`: the changed path and the bit mask of operations. -/
structure Event where
  Name : GoString
  Op : Nat
deriving DecidableEq, Repr

/-! ## Time -/

/-- The constant `time.Millisecond`, in nanoseconds. -/
def Millisecond : Int := 1000000

/-- The smallest `time.Duration` (an int64 of nanoseconds). -/
def minDuration : Int := -9223372036854775808

/-- The largest `time.Duration`. -/
def maxDuration : Int := 9223372036854775807

/-- The zero `time.Time`, the initial value of `var lastBuildTime time.Time`:
1 January of year 1, which is 62135596800 seconds before the Unix epoch. -/
def zeroTime : Int := -62135596800000000000

/-- The method `t.Sub(u)`: the duration `t - u`, saturated at the bounds of `time.Duration`. -/
def Sub (t u : Int) : Int :=
  if minDuration ≤ t - u ∧ t - u ≤ maxDuration then t - u
  else if t < u then minDuration
  else maxDuration

/-! ## The watch loop (`reloadr.watch`) -/

/-- A raw event received from `watcher.Events`, with the two clock readings the loop takes
while it handles the event: `now1` is `time.Now()` in `elapsedTime := time.Now().Sub(..)`,
`now2` is `time.Now()` in `lastBuildTime = time.Now()`, read after `onChange` has returned.
Neither is read when the event is not a write or matches no extension. -/
structure Arrival where
  event : Event
  now1 : Nat
  now2 : Nat
deriving DecidableEq, Repr

/-- The case the `select` of the watch loop takes in one iteration. -/
inductive Select where
  | event (a : Arrival)
  | error
  | stop
deriving DecidableEq, Repr

/-- The state of the watch loop: the local `lastBuildTime` and the calls made to the
responder so far (`onChange` calls oldest first, with the arrival they were made for, and
the number of `onErr` calls). The responder is an interface (`watchResponder`): its calls are
recorded, what the production responder does on a call is `responder.onChange` and
`responder.onErr` below. -/
structure WatchLoop where
  lastBuildTime : Int
  onChange : List Arrival
  onErr : Nat
deriving DecidableEq, Repr

/-- The state in which `watch` enters its loop. -/
def WatchLoop.init : WatchLoop :=
  { lastBuildTime := zeroTime, onChange := [], onErr := 0 }

/-- The loop `for _, ext := range r.watchExts` run for one write event: at the first
extension that is a suffix of the path the elapsed time is tested, `onChange` is called when
it exceeds 250 ms, `lastBuildTime` is assigned in either case, and the loop breaks. -/
def rangeWatchExts : List GoString → WatchLoop → Arrival → WatchLoop
  | [], st, _ => st
  | ext :: rest, st, a =>
    if HasSuffix a.event.Name ext then
      let elapsedTime := Sub (a.now1 : Int) st.lastBuildTime
      let st1 :=
        if elapsedTime > Millisecond * 250 then { st with onChange := st.onChange ++ [a] }
        else st
      { st1 with lastBuildTime := (a.now2 : Int) }
    else rangeWatchExts rest st a

/-- The body of `case event := <-watcher.Events`. -/
def watchEvent (watchExts : List GoString) (st : WatchLoop) (a : Arrival) : WatchLoop :=
  if a.event.Op &&& Write = Write then rangeWatchExts watchExts st a else st

/-- The loop of `reloadr.watch` over the cases its `select` takes, in order, entered with
the watcher that `setupWatcher` has returned. The loop returns at `stop`; when the cases are
used up it blocks in `select`. -/
def watch (watchExts : List GoString) : List Select → WatchLoop → WatchLoop
  | [], st => st
  | .event a :: rest, st => watch watchExts rest (watchEvent watchExts st a)
  | .error :: rest, st => watch watchExts rest { st with onErr := st.onErr + 1 }
  | .stop :: _, st => st

/-- The event is a write whose path ends with one of the watched extensions. -/
def watched (watchExts : List GoString) (e : Event) : Bool :=
  (e.Op &&& Write == Write) && watchExts.any (fun ext => HasSuffix e.Name ext)

/-- The clock readings of a run of the loop, in the order they are taken. -/
def readings : List Select → List Nat
  | [] => []
  | .event a :: rest => a.now1 :: a.now2 :: readings rest
  | _ :: rest => readings rest

/-- The select cases that are events of watched writes. -/
def watchedArrivals (watchExts : List GoString) : List Select → List Arrival
  | [] => []
  | .event a :: rest =>
    if watched watchExts a.event then a :: watchedArrivals watchExts rest
    else watchedArrivals watchExts rest
  | _ :: rest => watchedArrivals watchExts rest

/-- The loop does not return while it runs through these cases. -/
def noStop : List Select → Bool
  | [] => true
  | .stop :: _ => false
  | _ :: rest => noStop rest

/-! ## The supervisor (`installApplication`, `killApplicationInstance`, `runApplication`) -/

/-- A non-nil Go `error`. -/
abbrev GoError := GoString

/-- The fields of `exec.Cmd` the supervisor reads: `Process` is nil until `Start` has
succeeded (then it holds the process, here its pid); `ProcessState` is nil until `Wait` has
returned (then it holds the exit status). -/
structure Cmd where
  Process : Option Nat
  ProcessState : Option Nat
deriving DecidableEq, Repr

/-- The channel `stopCh chan bool`. Nothing is ever sent on it: it is either open or closed. -/
structure Chan where
  closed : Bool
deriving DecidableEq, Repr

/-- The fields of `type reloadr struct` that the build, kill, run sequence reads or writes
(`appName`, `watchPath`, `cmdDir` only name the commands, `watchExts` and `resp` belong to
the watch loop above). -/
structure reloadr where
  cmd : Option Cmd
  stopCh : Chan
  terminated : Bool
deriving DecidableEq, Repr

/-- An observable step of a session. -/
inductive Step where
  | installApplication
  | killApplicationInstance
  | runApplication
  | kill (pid : Nat)
  | closeStopCh
deriving DecidableEq, Repr

/-- A running session: the `reloadr` value, the processes started by it that are alive in
the operating system, and the steps taken so far, oldest first. `Step.installApplication`
and `Step.killApplicationInstance` are entries into these functions, `Step.runApplication`
is the statement `go r.runApplication()`, `Step.kill pid` is `r.cmd.Process.Kill()` and
`Step.closeStopCh` is `close(r.stopCh)`. -/
structure Session where
  r : reloadr
  live : List Nat
  steps : List Step
deriving DecidableEq, Repr

/-- How a function of the session ends: it returns a value, or it panics. In both cases the
session is what it was at that point. -/
inductive Run (α : Type) where
  | returned (a : α) (s : Session)
  | panicked (s : Session)
deriving DecidableEq, Repr

/-- The session at the end of a run. -/
def Run.session {α : Type} : Run α → Session
  | .returned _ s => s
  | .panicked s => s

/-- The run ended in a panic. -/
def Run.isPanicked {α : Type} : Run α → Bool
  | .returned _ _ => false
  | .panicked _ => true

/-- Sequencing: the second function runs when the first has returned. -/
def Run.andThen {α β : Type} (x : Run α) (f : α → Session → Run β) : Run β :=
  match x with
  | .returned a s => f a s
  | .panicked s => .panicked s

/-- Records a step. -/
def Session.log (s : Session) (st : Step) : Session :=
  { s with steps := s.steps ++ [st] }

/-- The steps a later session has taken since an earlier one. -/
def Session.since (s1 s : Session) : List Step :=
  s1.steps.drop s.steps.length

/-- The steps that are calls of the three stages of a cycle. -/
def calls (steps : List Step) : List Step :=
  steps.filter (fun st =>
    st = .installApplication || st = .killApplicationInstance || st = .runApplication)

/-- The processes that `Kill` was called on. -/
def kills : List Step → List Nat
  | [] => []
  | .kill pid :: rest => pid :: kills rest
  | _ :: rest => kills rest

/-- The statement `close(r.stopCh)`: closing a closed channel panics. -/
def closeStopCh (s : Session) : Run Unit :=
  if s.r.stopCh.closed then .panicked (s.log .closeStopCh)
  else .returned () { s.log .closeStopCh with r := { s.r with stopCh := { closed := true } } }

/-- The statement `r.terminated = true`. -/
def setTerminated (s : Session) : Session :=
  { s with r := { s.r with terminated := true } }

/-- What the `go install` command does: `cmd.Start()` fails, or the command starts and
`cmd.Wait()` reports a failure, or it starts and exits with success. -/
inductive Build where
  | startError (err : GoError)
  | waitError (err : GoError)
  | ok
deriving DecidableEq, Repr

/-- The method `responder.onErr`. -/
def responder.onErr (s : Session) : Run Unit :=
  closeStopCh (setTerminated s)

/-- The method `reloadr.installApplication`; the result is the returned `error`
(`none` is nil). -/
def installApplication (b : Build) (s : Session) : Run (Option GoError) :=
  let s0 := s.log .installApplication
  match b with
  | .startError err =>
    match closeStopCh (setTerminated s0) with
    | .panicked s1 => .panicked s1
    | .returned _ s1 => .returned (some err) s1
  | .waitError err => .returned (some err) s0
  | .ok => .returned none s0

/-- The method `reloadr.killApplicationInstance`; `k` is what `r.cmd.Process.Kill()`
returns if it is called (`none` is nil). A kill that succeeds ends the process. -/
def killApplicationInstance (k : Option GoError) (s : Session) : Run Unit :=
  let s0 := s.log .killApplicationInstance
  match s0.r.cmd with
  | none => .returned () s0
  | some c =>
    match c.Process, c.ProcessState with
    | some pid, none =>
      let s1 := s0.log (.kill pid)
      match k with
      | some _ => closeStopCh (setTerminated s1)
      | none => .returned () { s1 with live := s1.live.filter (fun p => p ≠ pid) }
    | _, _ => .returned () s0

/-- The method `reloadr.installAndRunApplication`. The statement `go r.runApplication()`
is recorded as a step; the body of the goroutine is `runApplication` below. -/
def installAndRunApplication (b : Build) (k : Option GoError) (s : Session) : Run Unit :=
  match installApplication b s with
  | .panicked s1 => .panicked s1
  | .returned err s1 =>
    match killApplicationInstance k s1 with
    | .panicked s2 => .panicked s2
    | .returned _ s2 =>
      if err = none then .returned () (s2.log .runApplication)
      else .returned () s2

/-- What `r.cmd.Start()` does in `runApplication`. -/
inductive Spawn where
  | failed (err : GoError)
  | started (pid : Nat)
deriving DecidableEq, Repr

/-- The method `reloadr.runApplication` up to its final `r.cmd.Wait()`, which blocks until
the process has exited: `r.cmd` is replaced by a fresh command, which is then started. -/
def runApplication (sp : Spawn) (s : Session) : Session :=
  let s1 : Session := { s with r := { s.r with cmd := some { Process := none, ProcessState := none } } }
  match sp with
  | .failed _ => s1
  | .started pid =>
    { s1 with r := { s1.r with cmd := some { Process := some pid, ProcessState := none } },
              live := pid :: s1.live }

/-- The method `responder.onChange`: one cycle (the prints and the sleep have no effect on
the session). -/
def responder.onChange (b : Build) (k : Option GoError) (s : Session) : Run Unit :=
  installAndRunApplication b k s

/-- A session right after `init`: no command, an open channel, not terminated. -/
def Session.init : Session :=
  { r := { cmd := none, stopCh := { closed := false }, terminated := false },
    live := [], steps := [] }

/-- The `reloadr` has a current command with a process on which `Wait` has not returned:
the process the supervisor believes alive. -/
def believedAlive (s : Session) (pid : Nat) : Prop :=
  s.r.cmd = some { Process := some pid, ProcessState := none }

instance (s : Session) (pid : Nat) : Decidable (believedAlive s pid) := by
  unfold believedAlive; infer_instance

/-! ## The directory watcher (`setupWatcher`) -/

/-- An entry of the file tree: a directory with its entries, or anything `Lstat` does not
report as a directory (a regular file, a symbolic link). -/
inductive Node where
  | file (name : GoString)
  | dir (name : GoString) (entries : List Node)

/-- The name of an entry. -/
def Node.name : Node → GoString
  | .file n => n
  | .dir n _ => n

/-- A path: the root path followed by the names below it (`filepath.Join` appends a name). -/
abbrev Path := List GoString

/-- An `fsnotify.Watcher`: the paths registered with it (the keys of its `watches` map). -/
structure Watcher where
  watches : List Path
deriving DecidableEq, Repr

/-- The method `Watcher.Add` of fsnotify; `addErr` is the error of the backend for a path
(`none` when the registration succeeds). Registering a registered path again keeps one
entry. -/
def Watcher.Add (addErr : Path → Option GoError) (w : Watcher) (p : Path) :
    Watcher × Option GoError :=
  match addErr p with
  | some e => (w, some e)
  | none => (if p ∈ w.watches then w else { watches := w.watches ++ [p] }, none)

/-- The method `Watcher.Remove` of fsnotify: an error for a path that is not registered. -/
def Watcher.Remove (w : Watcher) (p : Path) : Watcher × Option GoError :=
  if p ∈ w.watches then ({ watches := w.watches.filter (fun q => q ≠ p) }, none)
  else (w, some "can't remove non-existent watch".toList)

/-- The function literal passed to `filepath.Walk` in `setupWatcher`; `isDir` is
`info.IsDir()` and `err` the error `Walk` passes in. -/
def walkFn (addErr : Path → Option GoError) (w : Watcher) (path : Path) (isDir : Bool)
    (err : Option GoError) : Watcher × Option GoError :=
  if isDir then Watcher.Add addErr w path else (w, err)

mutual
/-- The function `walk` of `path/filepath` on a tree that exists and can be read (`Lstat`
and the reading of a directory succeed, so the callback is given a nil error): the callback
is called for the entry, then for the entries of a directory in turn, and the first error
the callback returns ends the walk. -/
def walk (addErr : Path → Option GoError) (w : Watcher) (path : Path) :
    Node → Watcher × Option GoError
  | .file _ => walkFn addErr w path false none
  | .dir _ entries =>
    match walkFn addErr w path true none with
    | (w1, some e) => (w1, some e)
    | (w1, none) => walkEntries addErr w1 path entries
/-- The loop `for _, name := range names` of `walk`. -/
def walkEntries (addErr : Path → Option GoError) (w : Watcher) (path : Path) :
    List Node → Watcher × Option GoError
  | [] => (w, none)
  | n :: rest =>
    match walk addErr w (path ++ [n.name]) n with
    | (w1, some e) => (w1, some e)
    | (w1, none) => walkEntries addErr w1 path rest
end

/-- The function `setupWatcher(path)`, where `tree` is the file tree found at `path` and
the name of its root is `path`. `newWatcherErr` is the error of `fsnotify.NewWatcher()`:
when it is not nil, `log.Fatal` ends the process and nothing is returned. The error of
`filepath.Walk` is discarded. -/
def setupWatcher (newWatcherErr : Option GoError) (addErr : Path → Option GoError)
    (tree : Node) : Option Watcher :=
  match newWatcherErr with
  | some _ => none
  | none => some (walk addErr { watches := [] } [tree.name] tree).1

/-- Removes the paths one after the other, as `TestWatcherDiscoversAllDirs` does; `none`
when a removal returns an error. -/
def removeEach (w : Watcher) : List Path → Option Watcher
  | [] => some w
  | p :: rest =>
    match w.Remove p with
    | (w1, none) => removeEach w1 rest
    | (_, some _) => none

/-- The path, from the root of the tree, leads to a directory of the tree. -/
inductive DirAt : Node → Path → Prop where
  | here (n : GoString) (es : List Node) : DirAt (.dir n es) [n]
  | under (n : GoString) (es : List Node) (e : Node) (p : Path) :
      e ∈ es → DirAt e p → DirAt (.dir n es) (n :: p)

/-- The path, from the root of the tree, leads to an entry that is not a directory. -/
inductive FileAt : Node → Path → Prop where
  | here (n : GoString) : FileAt (.file n) [n]
  | under (n : GoString) (es : List Node) (e : Node) (p : Path) :
      e ∈ es → FileAt e p → FileAt (.dir n es) (n :: p)

/-- The entries of every directory of the tree have distinct names, as in a file system. -/
inductive DistinctNames : Node → Prop where
  | file (n : GoString) : DistinctNames (.file n)
  | dir (n : GoString) (es : List Node) :
      (es.map Node.name).Nodup → (∀ e ∈ es, DistinctNames e) → DistinctNames (.dir n es)

/-- A chain of nested directories, one for each name: `nestedDirs "a" ["b", "c"]` is the
directory `a` holding only the directory `b` holding only the empty directory `c`. -/
def nestedDirs (root : GoString) : List GoString → Node
  | [] => .dir root []
  | n :: rest => .dir root [nestedDirs n rest]

/-- The paths of the directories of the chain, the root first:
`nestedPaths "a" ["b", "c"]` is `a`, `a/b`, `a/b/c`. -/
def nestedPaths (root : GoString) : List GoString → List Path
  | [] => [[root]]
  | n :: rest => [root] :: (nestedPaths n rest).map (fun p => root :: p)

/-! ## Facts about the watch loop -/

theorem HasSuffix_iff (s suffix : GoString) : HasSuffix s suffix = true ↔ suffix <:+ s := by
  unfold HasSuffix
  rw [List.suffix_iff_eq_drop]
  constructor
  · intro h
    simp only [Bool.and_eq_true, decide_eq_true_eq, beq_iff_eq] at h
    exact h.2.symm
  · intro h
    have hlen : suffix.length ≤ s.length := by
      have := congrArg List.length h
      simp only [List.length_drop] at this
      omega
    simp only [Bool.and_eq_true, decide_eq_true_eq, beq_iff_eq]
    exact ⟨hlen, h.symm⟩

theorem Sub_gt_iff (t u : Int) : Sub t u > Millisecond * 250 ↔ t - u > 250000000 := by
  unfold Sub Millisecond minDuration maxDuration
  split_ifs <;> omega

theorem rangeWatchExts_of_none (watchExts : List GoString) (st : WatchLoop) (a : Arrival)
    (h : watchExts.any (fun ext => HasSuffix a.event.Name ext) = false) :
    rangeWatchExts watchExts st a = st := by
  induction watchExts with
  | nil => rfl
  | cons ext rest ih =>
    simp only [List.any_cons, Bool.or_eq_false_iff] at h
    simp only [rangeWatchExts, h.1, Bool.false_eq_true, if_false]
    exact ih h.2

theorem rangeWatchExts_of_some (watchExts : List GoString) (st : WatchLoop) (a : Arrival)
    (h : watchExts.any (fun ext => HasSuffix a.event.Name ext) = true) :
    rangeWatchExts watchExts st a =
      { lastBuildTime := (a.now2 : Int),
        onChange := if (a.now1 : Int) - st.lastBuildTime > 250000000 then st.onChange ++ [a]
                    else st.onChange,
        onErr := st.onErr } := by
  induction watchExts with
  | nil => simp at h
  | cons ext rest ih =>
    by_cases hx : HasSuffix a.event.Name ext = true
    · simp only [rangeWatchExts, hx, if_true]
      by_cases hg : (a.now1 : Int) - st.lastBuildTime > 250000000
      · have := (Sub_gt_iff (a.now1 : Int) st.lastBuildTime).2 hg
        simp [this, hg]
      · have : ¬ Sub (a.now1 : Int) st.lastBuildTime > Millisecond * 250 :=
          fun h => hg ((Sub_gt_iff _ _).1 h)
        simp [this, hg]
    · simp only [Bool.not_eq_true] at hx
      simp only [List.any_cons, hx, Bool.false_or] at h
      simp only [rangeWatchExts, hx, Bool.false_eq_true, if_false]
      exact ih h

theorem watchEvent_of_not_watched (watchExts : List GoString) (st : WatchLoop) (a : Arrival)
    (h : watched watchExts a.event = false) : watchEvent watchExts st a = st := by
  unfold watchEvent
  split_ifs with hw
  · apply rangeWatchExts_of_none
    simpa [watched, hw] using h
  · rfl

theorem watchEvent_of_watched (watchExts : List GoString) (st : WatchLoop) (a : Arrival)
    (h : watched watchExts a.event = true) :
    watchEvent watchExts st a =
      { lastBuildTime := (a.now2 : Int),
        onChange := if (a.now1 : Int) - st.lastBuildTime > 250000000 then st.onChange ++ [a]
                    else st.onChange,
        onErr := st.onErr } := by
  simp only [watched, Bool.and_eq_true, beq_iff_eq] at h
  unfold watchEvent
  rw [if_pos h.1]
  exact rangeWatchExts_of_some watchExts st a h.2

theorem watch_append (watchExts : List GoString) (xs ys : List Select) (st : WatchLoop)
    (h : noStop xs = true) :
    watch watchExts (xs ++ ys) st = watch watchExts ys (watch watchExts xs st) := by
  induction xs generalizing st with
  | nil => rfl
  | cons x rest ih =>
    cases x with
    | event a => exact ih _ h
    | error => exact ih _ h
    | stop => simp [noStop] at h

theorem watch_of_no_watched (watchExts : List GoString) (xs : List Select) (st : WatchLoop)
    (h : watchedArrivals watchExts xs = []) :
    (watch watchExts xs st).lastBuildTime = st.lastBuildTime ∧
      (watch watchExts xs st).onChange = st.onChange := by
  induction xs generalizing st with
  | nil => exact ⟨rfl, rfl⟩
  | cons x rest ih =>
    cases x with
    | event a =>
      simp only [watchedArrivals] at h
      split_ifs at h with hw
      simp only [Bool.not_eq_true] at hw
      simp only [watch, watchEvent_of_not_watched watchExts st a hw]
      exact ih st h
    | error => exact ih _ h
    | stop => exact ⟨rfl, rfl⟩

theorem watch_spaced_from (watchExts : List GoString) (inputs : List Select) (st : WatchLoop)
    (hlast : ∀ t ∈ readings inputs, st.lastBuildTime ≤ (t : Int))
    (hmono : (readings inputs).Pairwise (fun t u => t ≤ u))
    (hseen : ∀ c ∈ st.onChange, (c.now1 : Int) ≤ st.lastBuildTime)
    (hsep : st.onChange.Pairwise (fun c d => (c.now1 : Int) + 250000000 < (d.now1 : Int))) :
    (watch watchExts inputs st).onChange.Pairwise
      (fun c d => (c.now1 : Int) + 250000000 < (d.now1 : Int)) := by
  induction inputs generalizing st with
  | nil => exact hsep
  | cons x rest ih =>
    cases x with
    | stop => exact hsep
    | error =>
      exact ih { st with onErr := st.onErr + 1 } hlast hmono hseen hsep
    | event a =>
      simp only [readings, List.pairwise_cons, List.mem_cons, forall_eq_or_imp] at hmono hlast
      obtain ⟨⟨h12, h1rest⟩, h2rest, hrest⟩ := hmono
      obtain ⟨hl1, hl2, hlrest⟩ := hlast
      simp only [watch]
      by_cases hw : watched watchExts a.event = true
      · rw [watchEvent_of_watched watchExts st a hw]
        apply ih
        · intro t ht
          show (a.now2 : Int) ≤ (t : Int)
          exact_mod_cast h2rest t ht
        · exact hrest
        · intro c hc
          show (c.now1 : Int) ≤ (a.now2 : Int)
          have h12i : (a.now1 : Int) ≤ (a.now2 : Int) := by exact_mod_cast h12
          split_ifs at hc with hg
          · rcases List.mem_append.1 hc with hc | hc
            · have := hseen c hc
              omega
            · simp only [List.mem_singleton] at hc
              subst hc
              exact h12i
          · have := hseen c hc
            omega
        · show List.Pairwise _ (if _ then _ else _)
          split_ifs with hg
          · rw [List.pairwise_append]
            refine ⟨hsep, List.pairwise_singleton _ _, ?_⟩
            intro c hc d hd
            simp only [List.mem_singleton] at hd
            subst hd
            have := hseen c hc
            omega
          · exact hsep
      · simp only [Bool.not_eq_true] at hw
        rw [watchEvent_of_not_watched watchExts st a hw]
        exact ih st hlrest hrest hseen hsep

theorem spaced_window (l : List Arrival)
    (hsep : l.Pairwise (fun c d => (c.now1 : Int) + 250000000 < (d.now1 : Int))) (t : Int) :
    (l.filter (fun c => decide (t ≤ (c.now1 : Int) ∧ (c.now1 : Int) ≤ t + 250000000))).length
      ≤ 1 := by
  have hf := hsep.filter
    (fun c => decide (t ≤ (c.now1 : Int) ∧ (c.now1 : Int) ≤ t + 250000000))
  generalize hm : l.filter
    (fun c => decide (t ≤ (c.now1 : Int) ∧ (c.now1 : Int) ≤ t + 250000000)) = m at hf
  match m, hm, hf with
  | [], _, _ => simp
  | [_], _, _ => simp
  | x :: y :: rest, hm, hf =>
    exfalso
    have hx : x ∈ l.filter
        (fun c => decide (t ≤ (c.now1 : Int) ∧ (c.now1 : Int) ≤ t + 250000000)) := by
      rw [hm]; simp
    have hy : y ∈ l.filter
        (fun c => decide (t ≤ (c.now1 : Int) ∧ (c.now1 : Int) ≤ t + 250000000)) := by
      rw [hm]; simp
    have hx2 := (List.mem_filter.1 hx).2
    have hy2 := (List.mem_filter.1 hy).2
    simp only [decide_eq_true_eq] at hx2 hy2
    have hxy := (List.pairwise_cons.1 hf).1 y (by simp)
    omega

/-- C8: an event that is not a write (its operation lacks the write bit), or whose path
ends with none of the watched extensions, is not accepted and leaves the state of the watch
loop as it was: no `onChange` call is added and `lastBuildTime` keeps its value. -/
theorem watchEvent_ignores_unwatched (watchExts : List GoString) (st : WatchLoop)
    (a : Arrival)
    (h : a.event.Op &&& Write ≠ Write ∨ ∀ ext ∈ watchExts, ¬ ext <:+ a.event.Name) :
    (watchEvent watchExts st a).onChange = st.onChange ∧
      (watchEvent watchExts st a).lastBuildTime = st.lastBuildTime ∧
      watchEvent watchExts st a = st := by
  have hw : watched watchExts a.event = false := by
    rcases h with h | h
    · simp [watched, h]
    · have : watchExts.any (fun ext => HasSuffix a.event.Name ext) = false := by
        rw [List.any_eq_false]
        intro ext hext hs
        exact h ext hext ((HasSuffix_iff _ _).1 hs)
      simp [watched, this]
  rw [watchEvent_of_not_watched watchExts st a hw]
  exact ⟨rfl, rfl, rfl⟩

/-- Witness of C8: a pure create of `main.go` and a write of `MAIN.GO`, with `.go` and
`.html` watched. -/
theorem watchEvent_ignores_unwatched_witness :
    (watchEvent [".go".toList, ".html".toList] WatchLoop.init
        { event := { Name := "main.go".toList, Op := Create }, now1 := 5, now2 := 6 }
      = WatchLoop.init) ∧
    (watchEvent [".go".toList, ".html".toList] WatchLoop.init
        { event := { Name := "MAIN.GO".toList, Op := Write }, now1 := 5, now2 := 6 }
      = WatchLoop.init) :=
  ⟨(watchEvent_ignores_unwatched [".go".toList, ".html".toList] WatchLoop.init
      { event := { Name := "main.go".toList, Op := Create }, now1 := 5, now2 := 6 }
      (Or.inl (by decide))).2.2,
   (watchEvent_ignores_unwatched [".go".toList, ".html".toList] WatchLoop.init
      { event := { Name := "MAIN.GO".toList, Op := Write }, now1 := 5, now2 := 6 }
      (Or.inr (by
        intro ext hext
        rw [← HasSuffix_iff]
        revert ext
        decide))).2.2⟩

theorem Sub_zeroTime_gt (now : Nat) : (now : Int) - zeroTime > 250000000 := by
  unfold zeroTime
  omega

/-- C7: in every run of the watch loop whose clock readings do not decrease, any two
accepted events (`onChange` calls) are more than 250 ms apart; so at most one accepted event
falls into any window of 250 ms, and two watched writes less than 250 ms apart, the first
events after the start, give exactly one accepted event, the first. -/
theorem watch_accepted_spaced (watchExts : List GoString) (inputs : List Select)
    (hmono : (readings inputs).Pairwise (fun t u => t ≤ u)) :
    (watch watchExts inputs WatchLoop.init).onChange.Pairwise
        (fun c d => (c.now1 : Int) + 250 * Millisecond < (d.now1 : Int)) ∧
    (∀ t : Int, ((watch watchExts inputs WatchLoop.init).onChange.filter
        (fun c => decide (t ≤ (c.now1 : Int) ∧ (c.now1 : Int) ≤ t + 250 * Millisecond))).length
        ≤ 1) ∧
    (∀ a b : Arrival, inputs = [Select.event a, Select.event b] →
        watched watchExts a.event = true → watched watchExts b.event = true →
        (b.now1 : Int) < (a.now1 : Int) + 250 * Millisecond →
        (watch watchExts inputs WatchLoop.init).onChange = [a]) := by
  have hM : (250 : Int) * Millisecond = 250000000 := by unfold Millisecond; norm_num
  simp only [hM]
  have hsp := watch_spaced_from watchExts inputs WatchLoop.init
    (by
      intro t _
      show zeroTime ≤ (t : Int)
      unfold zeroTime
      omega)
    hmono (by simp [WatchLoop.init]) (by simp [WatchLoop.init])
  refine ⟨hsp, fun t => spaced_window _ hsp t, ?_⟩
  intro a b hin ha hb hclose
  subst hin
  simp only [readings, List.pairwise_cons, List.mem_cons, forall_eq_or_imp] at hmono
  have h12 : (a.now1 : Int) ≤ (a.now2 : Int) := by exact_mod_cast hmono.1.1
  simp only [watch]
  rw [watchEvent_of_watched watchExts _ a ha, watchEvent_of_watched watchExts _ b hb]
  have h1 : (a.now1 : Int) - WatchLoop.init.lastBuildTime > 250000000 := Sub_zeroTime_gt a.now1
  have h2 : ¬ ((b.now1 : Int) - (a.now2 : Int) > 250000000) := by omega
  rw [if_pos h1]
  show (if (b.now1 : Int) - (a.now2 : Int) > 250000000 then _ else _) = _
  rw [if_neg h2]
  rfl

/-- Witness of C7: two writes of `main.go`, 100 ms apart. -/
theorem watch_accepted_spaced_witness :
    (watch [".go".toList]
      [Select.event { event := { Name := "main.go".toList, Op := Write },
                      now1 := 1000000000, now2 := 1000000000 },
       Select.event { event := { Name := "main.go".toList, Op := Write },
                      now1 := 1100000000, now2 := 1100000000 }]
      WatchLoop.init).onChange
      = [{ event := { Name := "main.go".toList, Op := Write },
           now1 := 1000000000, now2 := 1000000000 }] :=
  (watch_accepted_spaced [".go".toList]
      [Select.event { event := { Name := "main.go".toList, Op := Write },
                      now1 := 1000000000, now2 := 1000000000 },
       Select.event { event := { Name := "main.go".toList, Op := Write },
                      now1 := 1100000000, now2 := 1100000000 }]
      (by decide)).2.2 _ _ rfl (by decide) (by decide) (by decide)

/-- C6, as the code has it: a watched write is accepted exactly when more than 250 ms lie
between `lastBuildTime` and the clock reading taken for it, and it sets `lastBuildTime` to
the second clock reading whether it is accepted or dropped; events that are not watched
writes change neither. So the first watched write after the start is always accepted, and
a later watched write `b` is accepted exactly when it is handled more than 250 ms after the
handling of the watched write `a` before it ended, accepted or not. -/
theorem watch_accepts_iff (watchExts : List GoString) (pre mid : List Select)
    (a b : Arrival) (hpre : noStop pre = true) (hmid : noStop mid = true)
    (hnone : watchedArrivals watchExts mid = [])
    (ha : watched watchExts a.event = true) (hb : watched watchExts b.event = true) :
    ((watch watchExts (pre ++ [Select.event a]) WatchLoop.init).onChange =
        if (a.now1 : Int) - (watch watchExts pre WatchLoop.init).lastBuildTime
            > 250 * Millisecond
        then (watch watchExts pre WatchLoop.init).onChange ++ [a]
        else (watch watchExts pre WatchLoop.init).onChange) ∧
    (watch watchExts (pre ++ [Select.event a]) WatchLoop.init).lastBuildTime = (a.now2 : Int) ∧
    (watch watchExts (pre ++ [Select.event a] ++ mid) WatchLoop.init).lastBuildTime
        = (a.now2 : Int) ∧
    (watch watchExts (pre ++ [Select.event a] ++ mid) WatchLoop.init).onChange
        = (watch watchExts (pre ++ [Select.event a]) WatchLoop.init).onChange ∧
    ((watch watchExts (pre ++ [Select.event a] ++ mid ++ [Select.event b])
        WatchLoop.init).onChange =
        if (a.now2 : Int) + 250 * Millisecond < (b.now1 : Int)
        then (watch watchExts (pre ++ [Select.event a] ++ mid) WatchLoop.init).onChange ++ [b]
        else (watch watchExts (pre ++ [Select.event a] ++ mid) WatchLoop.init).onChange) ∧
    (watchedArrivals watchExts pre = [] →
      (watch watchExts (pre ++ [Select.event a]) WatchLoop.init).onChange = [a]) := by
  have hM : (250 : Int) * Millisecond = 250000000 := by unfold Millisecond; norm_num
  simp only [hM]
  have hpa : noStop (pre ++ [Select.event a]) = true := by
    clear hmid hnone ha hb
    induction pre with
    | nil => rfl
    | cons x rest ih =>
      cases x with
      | event _ => exact ih hpre
      | error => exact ih hpre
      | stop => simp [noStop] at hpre
  have hpam : noStop (pre ++ [Select.event a] ++ mid) = true := by
    clear hnone ha hb hpre
    generalize pre ++ [Select.event a] = xs at hpa
    induction xs with
    | nil => exact hmid
    | cons x rest ih =>
      cases x with
      | event _ => exact ih hpa
      | error => exact ih hpa
      | stop => simp [noStop] at hpa
  have e1 : watch watchExts (pre ++ [Select.event a]) WatchLoop.init
      = watchEvent watchExts (watch watchExts pre WatchLoop.init) a := by
    rw [watch_append watchExts pre _ _ hpre]; rfl
  have e2 := watch_append watchExts (pre ++ [Select.event a]) mid WatchLoop.init hpa
  have e3 : watch watchExts (pre ++ [Select.event a] ++ mid ++ [Select.event b]) WatchLoop.init
      = watchEvent watchExts
          (watch watchExts (pre ++ [Select.event a] ++ mid) WatchLoop.init) b := by
    rw [watch_append watchExts (pre ++ [Select.event a] ++ mid) _ _ hpam]; rfl
  have hm := watch_of_no_watched watchExts mid
    (watch watchExts (pre ++ [Select.event a]) WatchLoop.init) hnone
  rw [← e2] at hm
  have hl1 : (watch watchExts (pre ++ [Select.event a]) WatchLoop.init).lastBuildTime
      = (a.now2 : Int) := by
    rw [e1, watchEvent_of_watched watchExts _ a ha]
  refine ⟨?_, hl1, hm.1.trans hl1, hm.2, ?_, ?_⟩
  · rw [e1, watchEvent_of_watched watchExts _ a ha]
  · rw [e3, watchEvent_of_watched watchExts _ b hb]
    show (if _ then _ else _) = _
    rw [hm.1, hl1]
    by_cases hg : (a.now2 : Int) + 250000000 < (b.now1 : Int)
    · have : (b.now1 : Int) - (a.now2 : Int) > 250000000 := by omega
      rw [if_pos hg, if_pos this]
    · have : ¬ ((b.now1 : Int) - (a.now2 : Int) > 250000000) := by omega
      rw [if_neg hg, if_neg this]
  · intro hfirst
    have h0 := watch_of_no_watched watchExts pre WatchLoop.init hfirst
    rw [e1, watchEvent_of_watched watchExts _ a ha]
    show (if _ then _ else _) = _
    rw [h0.1, h0.2]
    have : (a.now1 : Int) - WatchLoop.init.lastBuildTime > 250000000 := Sub_zeroTime_gt a.now1
    rw [if_pos this]
    rfl

/-- Witness of the amended C6: a chmod of `main.go`, a write of it handled from 1000 ms to
1020 ms, a write of `README`, and a second write of `main.go` at 1400 ms: both writes of
`main.go` are accepted. -/
theorem watch_accepts_iff_witness :
    (watch [".go".toList]
      ([Select.event { event := { Name := "main.go".toList, Op := Chmod },
                       now1 := 900000000, now2 := 900000000 }]
        ++ [Select.event { event := { Name := "main.go".toList, Op := Write },
                           now1 := 1000000000, now2 := 1020000000 }]
        ++ [Select.event { event := { Name := "README".toList, Op := Write },
                           now1 := 1100000000, now2 := 1100000000 }]
        ++ [Select.event { event := { Name := "main.go".toList, Op := Write },
                           now1 := 1400000000, now2 := 1420000000 }])
      WatchLoop.init).onChange
    = [{ event := { Name := "main.go".toList, Op := Write },
         now1 := 1000000000, now2 := 1020000000 },
       { event := { Name := "main.go".toList, Op := Write },
         now1 := 1400000000, now2 := 1420000000 }] :=
  ((watch_accepts_iff [".go".toList]
    [Select.event { event := { Name := "main.go".toList, Op := Chmod },
                    now1 := 900000000, now2 := 900000000 }]
    [Select.event { event := { Name := "README".toList, Op := Write },
                    now1 := 1100000000, now2 := 1100000000 }]
    { event := { Name := "main.go".toList, Op := Write },
      now1 := 1000000000, now2 := 1020000000 }
    { event := { Name := "main.go".toList, Op := Write },
      now1 := 1400000000, now2 := 1420000000 }
    (by decide) (by decide) (by decide) (by decide) (by decide)).2.2.2.2.1).trans (by decide)

/-- Counterexample to C6: three writes of `main.go` at 1000 ms, 1200 ms and 1400 ms. The
third comes 400 ms after the last accepted event (the first) and is dropped, and the second,
which is dropped, has moved `lastBuildTime`. -/
theorem watch_dropped_event_restarts_window :
    (readings
      [Select.event { event := { Name := "main.go".toList, Op := Write },
                      now1 := 1000000000, now2 := 1000000000 },
       Select.event { event := { Name := "main.go".toList, Op := Write },
                      now1 := 1200000000, now2 := 1200000000 },
       Select.event { event := { Name := "main.go".toList, Op := Write },
                      now1 := 1400000000, now2 := 1400000000 }]).Pairwise (fun t u => t ≤ u) ∧
    watched [".go".toList] { Name := "main.go".toList, Op := Write } = true ∧
    (watch [".go".toList]
      [Select.event { event := { Name := "main.go".toList, Op := Write },
                      now1 := 1000000000, now2 := 1000000000 },
       Select.event { event := { Name := "main.go".toList, Op := Write },
                      now1 := 1200000000, now2 := 1200000000 }]
      WatchLoop.init).onChange
      = [{ event := { Name := "main.go".toList, Op := Write },
           now1 := 1000000000, now2 := 1000000000 }] ∧
    ((1000000000 : Nat) : Int) + 250 * Millisecond < ((1400000000 : Nat) : Int) ∧
    (watch [".go".toList]
      [Select.event { event := { Name := "main.go".toList, Op := Write },
                      now1 := 1000000000, now2 := 1000000000 },
       Select.event { event := { Name := "main.go".toList, Op := Write },
                      now1 := 1200000000, now2 := 1200000000 },
       Select.event { event := { Name := "main.go".toList, Op := Write },
                      now1 := 1400000000, now2 := 1400000000 }]
      WatchLoop.init).onChange
      = [{ event := { Name := "main.go".toList, Op := Write },
           now1 := 1000000000, now2 := 1000000000 }] ∧
    (watch [".go".toList]
      [Select.event { event := { Name := "main.go".toList, Op := Write },
                      now1 := 1000000000, now2 := 1000000000 },
       Select.event { event := { Name := "main.go".toList, Op := Write },
                      now1 := 1200000000, now2 := 1200000000 }]
      WatchLoop.init).lastBuildTime
      ≠ (watch [".go".toList]
          [Select.event { event := { Name := "main.go".toList, Op := Write },
                          now1 := 1000000000, now2 := 1000000000 }]
          WatchLoop.init).lastBuildTime := by
  decide

/-! ## Facts about the supervisor -/

theorem since_log (s : Session) (l : List Step) (s1 : Session)
    (h : s1.steps = s.steps ++ l) : s1.since s = l := by
  unfold Session.since
  rw [h, List.drop_left]

/-- What `installApplication` does in every session, for every outcome of the build: it
returns nil exactly for a build that started and succeeded; a build that started and failed
returns its error and changes nothing but the record of the call; a build that cannot be
started sets `terminated` and closes `stopCh`, returning the error when the channel was open
and panicking when it was closed. -/
theorem installApplication_outcomes (b : Build) (s : Session) :
    (installApplication b s = .returned none (s.log .installApplication) ↔ b = .ok) ∧
    (∀ s1, installApplication b s = .returned none s1 → b = .ok) ∧
    (∀ err, b = .waitError err →
      installApplication b s = .returned (some err) (s.log .installApplication)) ∧
    (∀ err, b = .startError err → s.r.stopCh.closed = false →
      installApplication b s = .returned (some err)
        { r := { cmd := s.r.cmd, stopCh := { closed := true }, terminated := true },
          live := s.live,
          steps := s.steps ++ [.installApplication, .closeStopCh] }) ∧
    (∀ err, b = .startError err → s.r.stopCh.closed = true →
      installApplication b s = .panicked
        { r := { cmd := s.r.cmd, stopCh := s.r.stopCh, terminated := true },
          live := s.live,
          steps := s.steps ++ [.installApplication, .closeStopCh] }) := by
  refine ⟨?_, ?_, ?_, ?_, ?_⟩
  · cases b with
    | ok => simp [installApplication]
    | waitError e => simp [installApplication]
    | startError e =>
      simp only [installApplication, closeStopCh, setTerminated, Session.log]
      split_ifs <;> simp
  · intro s1 h
    cases b with
    | ok => rfl
    | waitError e => simp [installApplication] at h
    | startError e =>
      simp only [installApplication, closeStopCh, setTerminated, Session.log] at h
      split_ifs at h
      simp at h
  · rintro err rfl
    rfl
  · rintro err rfl hopen
    simp [installApplication, closeStopCh, setTerminated, Session.log, hopen]
  · rintro err rfl hclosed
    simp [installApplication, closeStopCh, setTerminated, Session.log, hclosed]

/-- What `killApplicationInstance` does to a session in which the current command has a
process and no process state. -/
theorem killApplicationInstance_alive (k : Option GoError) (s : Session) (pid : Nat)
    (h : believedAlive s pid) :
    killApplicationInstance k s =
      match k with
      | none => .returned ()
          { r := s.r, live := s.live.filter (fun p => p ≠ pid),
            steps := s.steps ++ [.killApplicationInstance, .kill pid] }
      | some _ =>
        if s.r.stopCh.closed then .panicked
          { r := { cmd := s.r.cmd, stopCh := s.r.stopCh, terminated := true },
            live := s.live,
            steps := s.steps ++ [.killApplicationInstance, .kill pid, .closeStopCh] }
        else .returned ()
          { r := { cmd := s.r.cmd, stopCh := { closed := true }, terminated := true },
            live := s.live,
            steps := s.steps ++ [.killApplicationInstance, .kill pid, .closeStopCh] } := by
  unfold believedAlive at h
  cases k with
  | none => simp [killApplicationInstance, Session.log, h]
  | some e =>
    simp only [killApplicationInstance, Session.log, h, closeStopCh, setTerminated]
    split_ifs <;> simp

/-- What `killApplicationInstance` does when there is no process to kill. -/
theorem killApplicationInstance_idle (k : Option GoError) (s : Session)
    (h : s.r.cmd = none ∨ (∃ c, s.r.cmd = some c ∧ c.Process = none) ∨
      (∃ c, s.r.cmd = some c ∧ c.ProcessState ≠ none)) :
    killApplicationInstance k s = .returned () (s.log .killApplicationInstance) := by
  rcases h with h | ⟨c, hc, hp⟩ | ⟨c, hc, hp⟩
  · simp [killApplicationInstance, Session.log, h]
  · obtain ⟨p, ps⟩ := c
    simp only at hp
    subst hp
    simp [killApplicationInstance, Session.log, hc]
  · obtain ⟨p, ps⟩ := c
    simp only at hp
    cases p with
    | none => simp [killApplicationInstance, Session.log, hc]
    | some pid =>
      cases ps with
      | none => exact absurd rfl hp
      | some st => simp [killApplicationInstance, Session.log, hc]

/-- What one cycle does in a session whose stop channel is open when the cycle begins: the
calls are the build, then the kill, then the start if and only if the build returned nil. -/
theorem installAndRunApplication_calls_of_open (b : Build) (k : Option GoError) (s : Session)
    (hopen : s.r.stopCh.closed = false) :
    calls ((installAndRunApplication b k s).session.since s) =
      [.installApplication, .killApplicationInstance] ++
        (if b = .ok then [.runApplication] else []) := by
  obtain ⟨⟨cmd, ⟨closed⟩, term⟩, live, steps⟩ := s
  simp only at hopen
  subst hopen
  unfold Session.since
  rcases cmd with _ | ⟨_ | pid, _ | st⟩ <;> cases b <;> cases k <;>
    simp [installAndRunApplication, installApplication, killApplicationInstance, closeStopCh,
      setTerminated, Session.log, Run.session, calls]

/-- What `killApplicationInstance` does in every session. It sends no kill and changes
nothing when there is no current command, when the command has no process, or when its
process state is populated. In every other session it calls `Kill` once, on the current
process; when that kill succeeds it returns and touches neither `terminated` nor `stopCh`;
when that kill fails it sets `terminated` and executes `close(r.stopCh)`, which closes the
channel and returns if the channel was open, and panics if the channel was closed. -/
theorem killApplicationInstance_effects (k : Option GoError) (s : Session) :
    ((s.r.cmd = none ∨ (∃ c, s.r.cmd = some c ∧ c.Process = none) ∨
        (∃ c, s.r.cmd = some c ∧ c.ProcessState ≠ none)) ∨ (∃ pid, believedAlive s pid)) ∧
    ((s.r.cmd = none ∨ (∃ c, s.r.cmd = some c ∧ c.Process = none) ∨
        (∃ c, s.r.cmd = some c ∧ c.ProcessState ≠ none)) →
      (killApplicationInstance k s).isPanicked = false ∧
      (killApplicationInstance k s).session.r = s.r ∧
      (killApplicationInstance k s).session.live = s.live ∧
      (killApplicationInstance k s).session.since s = [.killApplicationInstance]) ∧
    (∀ pid, believedAlive s pid →
      (killApplicationInstance k s).isPanicked = (s.r.stopCh.closed && k.isSome) ∧
      kills ((killApplicationInstance k s).session.since s) = [pid] ∧
      (killApplicationInstance k s).session.r.cmd = s.r.cmd ∧
      (Step.closeStopCh ∈ (killApplicationInstance k s).session.since s ↔ k ≠ none) ∧
      ((killApplicationInstance k s).session.since s).count .closeStopCh ≤ 1 ∧
      (killApplicationInstance k s).session.r.terminated = (s.r.terminated || k.isSome) ∧
      (killApplicationInstance k s).session.r.stopCh.closed
        = (s.r.stopCh.closed || k.isSome)) := by
  refine ⟨?_, ?_, ?_⟩
  · obtain ⟨⟨cmd, ch, term⟩, live, steps⟩ := s
    rcases cmd with _ | ⟨_ | pid, _ | st⟩
    · exact Or.inl (Or.inl rfl)
    · exact Or.inl (Or.inr (Or.inl ⟨_, rfl, rfl⟩))
    · exact Or.inl (Or.inr (Or.inl ⟨_, rfl, rfl⟩))
    · exact Or.inr ⟨pid, rfl⟩
    · exact Or.inl (Or.inr (Or.inr ⟨_, rfl, by simp⟩))
  · intro h
    rw [killApplicationInstance_idle k s h]
    refine ⟨rfl, rfl, rfl, ?_⟩
    exact since_log s _ _ rfl
  · intro pid h
    rw [killApplicationInstance_alive k s pid h]
    cases k with
    | none =>
      simp only [Run.session, Run.isPanicked]
      rw [since_log s [.killApplicationInstance, .kill pid] _ rfl]
      simp [kills]
    | some e =>
      by_cases hc : s.r.stopCh.closed = true
      · simp only [hc, if_true, Run.session, Run.isPanicked]
        rw [since_log s [.killApplicationInstance, .kill pid, .closeStopCh] _ rfl]
        simp [kills, hc]
      · simp only [hc, if_false, Run.session, Run.isPanicked]
        rw [since_log s [.killApplicationInstance, .kill pid, .closeStopCh] _ rfl]
        simp [kills, hc]

/-- C9 at a session with a running instance whose stop channel has been closed by the
launch failure of the build of the same cycle, and a kill that fails:
`killApplicationInstance` calls `Kill` on the process, sets `terminated`, and panics in
`close(r.stopCh)`; the shutdown signal is not fired by this call and the call does not
return. -/
theorem killApplicationInstance_panics_on_closed_channel :
    installApplication (.startError "exec: not found".toList)
        (runApplication (.started 7) Session.init)
      = .returned (some "exec: not found".toList)
        { r := { cmd := some { Process := some 7, ProcessState := none },
                 stopCh := { closed := true }, terminated := true },
          live := [7], steps := [.installApplication, .closeStopCh] } ∧
    killApplicationInstance (some "EPERM".toList)
        { r := { cmd := some { Process := some 7, ProcessState := none },
                 stopCh := { closed := true }, terminated := true },
          live := [7], steps := [.installApplication, .closeStopCh] }
      = .panicked
        { r := { cmd := some { Process := some 7, ProcessState := none },
                 stopCh := { closed := true }, terminated := true },
          live := [7],
          steps := [.installApplication, .closeStopCh, .killApplicationInstance, .kill 7,
                    .closeStopCh] } := by
  decide

/-- In every session, two calls of `onErr` in a row end in a panic. -/
theorem onErr_twice_panics (s : Session) :
    ((responder.onErr s).andThen (fun _ s1 => responder.onErr s1)).isPanicked = true := by
  obtain ⟨⟨cmd, ⟨closed⟩, term⟩, live, steps⟩ := s
  cases closed <;>
    simp [responder.onErr, closeStopCh, setTerminated, Session.log, Run.andThen,
      Run.isPanicked]

/-- In every session with a process believed alive, a cycle whose build cannot be started
and whose kill fails ends in a panic. -/
theorem installAndRunApplication_two_fatal_panics (e1 e2 : GoError) (s : Session) (pid : Nat)
    (h : believedAlive s pid) :
    (installAndRunApplication (.startError e1) (some e2) s).isPanicked = true := by
  obtain ⟨⟨cmd, ⟨closed⟩, term⟩, live, steps⟩ := s
  unfold believedAlive at h
  simp only at h
  subst h
  cases closed <;>
    simp [installAndRunApplication, installApplication, killApplicationInstance, closeStopCh,
      setTerminated, Session.log, Run.isPanicked]

/-- In every session with an open stop channel and a process believed alive, a cycle whose
build succeeds and whose kill fails returns with `terminated` set, `stopCh` closed, the
process still alive if it was, and `go r.runApplication()` executed after the close. -/
theorem installAndRunApplication_ok_failed_kill (e : GoError) (s : Session) (pid : Nat)
    (h : believedAlive s pid) (hopen : s.r.stopCh.closed = false) :
    installAndRunApplication .ok (some e) s = .returned ()
      { r := { cmd := s.r.cmd, stopCh := { closed := true }, terminated := true },
        live := s.live,
        steps := s.steps ++ [.installApplication, .killApplicationInstance, .kill pid,
                             .closeStopCh, .runApplication] } := by
  obtain ⟨⟨cmd, ⟨closed⟩, term⟩, live, steps⟩ := s
  unfold believedAlive at h
  simp only at h hopen
  subst h hopen
  simp [installAndRunApplication, installApplication, killApplicationInstance, closeStopCh,
    setTerminated, Session.log]

/-- C1 at a session whose stop channel is closed when the cycle begins (here closed by
`onErr`). When the build cannot be started, `installApplication` panics in its `close` and
the only call of the cycle is the build: `killApplicationInstance` is not called. When the
build succeeds and the kill of the running process fails, `killApplicationInstance` panics
in its `close` and no instance is started although the build returned nil. -/
theorem installAndRunApplication_calls_on_closed_channel :
    responder.onErr Session.init = .returned ()
      { r := { cmd := none, stopCh := { closed := true }, terminated := true },
        live := [], steps := [.closeStopCh] } ∧
    installAndRunApplication (.startError "exec: not found".toList) none
        { r := { cmd := none, stopCh := { closed := true }, terminated := true },
          live := [], steps := [.closeStopCh] }
      = .panicked
        { r := { cmd := none, stopCh := { closed := true }, terminated := true },
          live := [], steps := [.closeStopCh, .installApplication, .closeStopCh] } ∧
    calls ((installAndRunApplication (.startError "exec: not found".toList) none
        { r := { cmd := none, stopCh := { closed := true }, terminated := true },
          live := [], steps := [.closeStopCh] }).session.since
        { r := { cmd := none, stopCh := { closed := true }, terminated := true },
          live := [], steps := [.closeStopCh] }) = [.installApplication] ∧
    installAndRunApplication .ok (some "EPERM".toList)
        { r := { cmd := some { Process := some 7, ProcessState := none },
                 stopCh := { closed := true }, terminated := true },
          live := [7], steps := [.closeStopCh] }
      = .panicked
        { r := { cmd := some { Process := some 7, ProcessState := none },
                 stopCh := { closed := true }, terminated := true },
          live := [7],
          steps := [.closeStopCh, .installApplication, .killApplicationInstance, .kill 7,
                    .closeStopCh] } := by
  decide

/-- C2 at a session with a running instance, a build that succeeds and a kill that fails:
`stopCh` is closed and `terminated` is set, and then `go r.runApplication()` is executed
all the same, while the previous instance is still alive. -/
theorem installAndRunApplication_starts_after_failed_kill :
    installAndRunApplication .ok (some "EPERM".toList)
        (runApplication (.started 7) Session.init)
      = .returned ()
        { r := { cmd := some { Process := some 7, ProcessState := none },
                 stopCh := { closed := true }, terminated := true },
          live := [7],
          steps := [.installApplication, .killApplicationInstance, .kill 7, .closeStopCh,
                    .runApplication] } := by
  decide

/-- C3 at a cycle whose build cannot be started and whose kill of the running instance
fails, and at two `onErr` calls in a row: the second `close(r.stopCh)` is made on the closed
channel and panics. -/
theorem second_close_panics :
    installAndRunApplication (.startError "exec: not found".toList) (some "EPERM".toList)
        (runApplication (.started 7) Session.init)
      = .panicked
        { r := { cmd := some { Process := some 7, ProcessState := none },
                 stopCh := { closed := true }, terminated := true },
          live := [7],
          steps := [.installApplication, .closeStopCh, .killApplicationInstance, .kill 7,
                    .closeStopCh] } ∧
    (responder.onErr Session.init).andThen (fun _ s => responder.onErr s)
      = .panicked
        { r := { cmd := none, stopCh := { closed := true }, terminated := true },
          live := [], steps := [.closeStopCh, .closeStopCh] } := by
  decide

/-- C5 at a session whose stop channel is already closed (here by `onErr`) and a build that
cannot be started: `installApplication` sets `terminated`, panics in `close(r.stopCh)` and
returns no error. -/
theorem installApplication_panics_on_closed_channel :
    installApplication (.startError "exec: not found".toList)
        (responder.onErr Session.init).session
      = .panicked
        { r := { cmd := none, stopCh := { closed := true }, terminated := true },
          live := [], steps := [.closeStopCh, .installApplication, .closeStopCh] } := by
  decide

/-- Counterexample to C4: an instance is running, the build fails (the command exits with
an error) and the kill of the instance fails. The cycle completes and the instance is still
running. -/
theorem build_failure_with_failed_kill_leaves_instance :
    believedAlive (runApplication (.started 7) Session.init) 7 ∧
    (runApplication (.started 7) Session.init).live = [7] ∧
    installAndRunApplication (.waitError "exit status 2".toList) (some "EPERM".toList)
        (runApplication (.started 7) Session.init)
      = .returned ()
        { r := { cmd := some { Process := some 7, ProcessState := none },
                 stopCh := { closed := true }, terminated := true },
          live := [7],
          steps := [.installApplication, .killApplicationInstance, .kill 7,
                    .closeStopCh] } := by
  decide

/-- C4, as the code has it: when an instance is running, the build fails and the kill of
the instance succeeds, then after the cycle has completed the instance is no longer alive,
`Kill` was called on it, no instance was started, and no process is alive that was not
alive before; if it was the only one, none is alive. The cycle does complete when the stop
channel was open before it or the build command had started. -/
theorem build_failure_leaves_no_instance (b : Build) (s : Session) (pid : Nat)
    (halive : believedAlive s pid) (hlive : pid ∈ s.live) (hb : b ≠ .ok) :
    (∀ s1, installAndRunApplication b none s = .returned () s1 →
      pid ∉ s1.live ∧ s1.live = s.live.filter (fun p => p ≠ pid) ∧
      s1.live.length < s.live.length ∧
      kills (s1.since s) = [pid] ∧ Step.runApplication ∉ s1.since s ∧
      (s.live = [pid] → s1.live = [])) ∧
    ((s.r.stopCh.closed = false ∨ ∃ err, b = .waitError err) →
      ∃ s1, installAndRunApplication b none s = .returned () s1) := by
  have hfilter : pid ∉ s.live.filter (fun p => p ≠ pid) := by
    simp [List.mem_filter]
  have hlen : (s.live.filter (fun p => p ≠ pid)).length < s.live.length := by
    apply List.length_filter_lt_length_iff_exists.2
    exact ⟨pid, hlive, by simp⟩
  have hone : s.live = [pid] → s.live.filter (fun p => p ≠ pid) = [] := by
    intro h; rw [h]; simp
  obtain ⟨⟨cmd, ⟨closed⟩, term⟩, live, steps⟩ := s
  unfold believedAlive at halive
  simp only at halive
  subst halive
  cases b with
  | ok => exact absurd rfl hb
  | waitError e =>
    have hrun : installAndRunApplication (.waitError e) none
        { r := { cmd := some { Process := some pid, ProcessState := none },
                 stopCh := { closed := closed }, terminated := term },
          live := live, steps := steps }
        = .returned ()
          { r := { cmd := some { Process := some pid, ProcessState := none },
                   stopCh := { closed := closed }, terminated := term },
            live := live.filter (fun p => p ≠ pid),
            steps := steps ++ [.installApplication, .killApplicationInstance, .kill pid] } := by
      simp [installAndRunApplication, installApplication, killApplicationInstance, Session.log]
    refine ⟨?_, fun _ => ⟨_, hrun⟩⟩
    intro s1 h
    rw [hrun] at h
    injection h with _ h
    subst h
    refine ⟨hfilter, rfl, hlen, ?_, ?_, hone⟩
    · rw [since_log _ [.installApplication, .killApplicationInstance, .kill pid] _ rfl]
      rfl
    · rw [since_log _ [.installApplication, .killApplicationInstance, .kill pid] _ rfl]
      simp
  | startError e =>
    cases closed with
    | true =>
      refine ⟨?_, ?_⟩
      · intro s1 h
        simp [installAndRunApplication, installApplication, closeStopCh, setTerminated,
          Session.log] at h
      · rintro (h | ⟨err, h⟩)
        · simp at h
        · simp at h
    | false =>
      have hrun : installAndRunApplication (.startError e) none
          { r := { cmd := some { Process := some pid, ProcessState := none },
                   stopCh := { closed := false }, terminated := term },
            live := live, steps := steps }
          = .returned ()
            { r := { cmd := some { Process := some pid, ProcessState := none },
                     stopCh := { closed := true }, terminated := true },
              live := live.filter (fun p => p ≠ pid),
              steps := steps ++ [.installApplication, .closeStopCh, .killApplicationInstance,
                                 .kill pid] } := by
        simp [installAndRunApplication, installApplication, killApplicationInstance,
          closeStopCh, setTerminated, Session.log]
      refine ⟨?_, fun _ => ⟨_, hrun⟩⟩
      intro s1 h
      rw [hrun] at h
      injection h with _ h
      subst h
      refine ⟨hfilter, rfl, hlen, ?_, ?_, hone⟩
      · rw [since_log _
          [.installApplication, .closeStopCh, .killApplicationInstance, .kill pid] _ rfl]
        rfl
      · rw [since_log _
          [.installApplication, .closeStopCh, .killApplicationInstance, .kill pid] _ rfl]
        simp

/-- Witness of the amended C4: the instance with pid 7 is running, the build exits with an
error, the kill succeeds. -/
theorem build_failure_leaves_no_instance_witness :
    (installAndRunApplication (.waitError "exit status 2".toList) none
        (runApplication (.started 7) Session.init)).session.live = [] :=
  ((build_failure_leaves_no_instance (.waitError "exit status 2".toList)
      (runApplication (.started 7) Session.init) 7 rfl (by decide) (by decide)).1
      (installAndRunApplication (.waitError "exit status 2".toList) none
        (runApplication (.started 7) Session.init)).session rfl).2.2.2.2.2 rfl

/-! ## Facts about the directory watcher -/

theorem mem_Add (addErr : Path → Option GoError) (hadd : ∀ p, addErr p = none)
    (w : Watcher) (p q : Path) :
    (Watcher.Add addErr w p).2 = none ∧
      (q ∈ (Watcher.Add addErr w p).1.watches ↔ q ∈ w.watches ∨ q = p) := by
  unfold Watcher.Add
  rw [hadd p]
  refine ⟨rfl, ?_⟩
  by_cases hp : p ∈ w.watches
  · simp only [hp, if_true]
    constructor
    · exact Or.inl
    · rintro (h | h)
      · exact h
      · exact h ▸ hp
  · simp only [hp, if_false, List.mem_append, List.mem_singleton]

mutual
theorem walk_registers (addErr : Path → Option GoError) (hadd : ∀ p, addErr p = none) :
    ∀ (n : Node) (w : Watcher) (pre : Path) (q : Path),
      (walk addErr w (pre ++ [n.name]) n).2 = none ∧
      (q ∈ (walk addErr w (pre ++ [n.name]) n).1.watches ↔
        q ∈ w.watches ∨ ∃ p, DirAt n p ∧ q = pre ++ p)
  | .file name, w, pre, q => by
    simp only [walk, walkFn, Bool.false_eq_true, if_false]
    refine ⟨trivial, ?_⟩
    constructor
    · exact Or.inl
    · rintro (h | ⟨p, hp, _⟩)
      · exact h
      · cases hp
  | .dir name es, w, pre, q => by
    have hA := mem_Add addErr hadd w (pre ++ [name])
    have hE := walkEntries_registers addErr hadd es
      (Watcher.Add addErr w (pre ++ [name])).1 (pre ++ [name]) q
    simp only [walk, walkFn, if_true, Node.name]
    rcases hw : Watcher.Add addErr w (pre ++ [name]) with ⟨w1, e1⟩
    rw [hw] at hE
    have hA2 := fun q => hA q
    rw [hw] at hA2
    simp only at hA2
    have he1 : e1 = none := (hA2 q).1
    subst he1
    simp only
    refine ⟨hE.1, ?_⟩
    rw [hE.2, (hA2 q).2]
    constructor
    · rintro ((h | h) | ⟨e, he, p, hp, hq⟩)
      · exact Or.inl h
      · exact Or.inr ⟨[name], DirAt.here name es, h⟩
      · refine Or.inr ⟨name :: p, DirAt.under name es e p he hp, ?_⟩
        rw [hq]; simp
    · rintro (h | ⟨p, hp, hq⟩)
      · exact Or.inl (Or.inl h)
      · cases hp with
        | here => exact Or.inl (Or.inr hq)
        | under _ _ e p he hp =>
          refine Or.inr ⟨e, he, p, hp, ?_⟩
          rw [hq]; simp
theorem walkEntries_registers (addErr : Path → Option GoError)
    (hadd : ∀ p, addErr p = none) :
    ∀ (es : List Node) (w : Watcher) (path : Path) (q : Path),
      (walkEntries addErr w path es).2 = none ∧
      (q ∈ (walkEntries addErr w path es).1.watches ↔
        q ∈ w.watches ∨ ∃ e ∈ es, ∃ p, DirAt e p ∧ q = path ++ p)
  | [], w, path, q => by
    simp [walkEntries]
  | n :: rest, w, path, q => by
    have hN := walk_registers addErr hadd n w path
    have hR := walkEntries_registers addErr hadd rest
      (walk addErr w (path ++ [n.name]) n).1 path q
    simp only [walkEntries]
    rcases hw : walk addErr w (path ++ [n.name]) n with ⟨w1, e1⟩
    rw [hw] at hR
    have hN2 := fun q => hN q
    rw [hw] at hN2
    simp only at hN2
    have he1 : e1 = none := (hN2 q).1
    subst he1
    simp only
    refine ⟨hR.1, ?_⟩
    rw [hR.2, (hN2 q).2]
    simp only [List.mem_cons, exists_eq_or_imp, or_assoc]
end

theorem DirAt_head (t : Node) (p : Path) (h : DirAt t p) : ∃ rest, p = t.name :: rest := by
  cases h with
  | here n es => exact ⟨[], rfl⟩
  | under n es e p _ _ => exact ⟨p, rfl⟩

theorem FileAt_head (t : Node) (p : Path) (h : FileAt t p) : ∃ rest, p = t.name :: rest := by
  cases h with
  | here n => exact ⟨[], rfl⟩
  | under n es e p _ _ => exact ⟨p, rfl⟩

theorem FileAt_not_DirAt (t : Node) (p : Path) (hf : FileAt t p) (hd : DistinctNames t) :
    ¬ DirAt t p := by
  induction hf with
  | here n => intro h; cases h
  | under n es e p he hfe ih =>
    intro h
    cases hd with
    | dir _ _ hnodup hall =>
      cases h with
      | here =>
        obtain ⟨rest, hr⟩ := FileAt_head e [] hfe
        cases hr
      | under _ _ e2 _ he2 hde =>
        obtain ⟨r1, h1⟩ := FileAt_head e p hfe
        obtain ⟨r2, h2⟩ := DirAt_head e2 p hde
        have hname : e.name = e2.name := by
          rw [h1] at h2
          exact (List.cons.inj h2).1
        have hee : e = e2 := List.inj_on_of_nodup_map hnodup he he2 hname
        subst hee
        exact ih (hall e he) hde

theorem name_nestedDirs (root : GoString) (names : List GoString) :
    (nestedDirs root names).name = root := by
  cases names <;> rfl

theorem nestedPaths_ne_nil (root : GoString) (names : List GoString) :
    ∀ p ∈ nestedPaths root names, p ≠ [] := by
  cases names with
  | nil => simp [nestedPaths]
  | cons n rest =>
    intro p hp
    simp only [nestedPaths, List.mem_cons, List.mem_map] at hp
    rcases hp with rfl | ⟨q, _, rfl⟩ <;> simp

theorem nestedPaths_length (root : GoString) (names : List GoString) :
    (nestedPaths root names).length = names.length + 1 := by
  induction names generalizing root with
  | nil => rfl
  | cons n rest ih => simp [nestedPaths, ih]

theorem nestedPaths_nodup (root : GoString) (names : List GoString) :
    (nestedPaths root names).Nodup := by
  induction names generalizing root with
  | nil => simp [nestedPaths]
  | cons n rest ih =>
    simp only [nestedPaths, List.nodup_cons, List.mem_map, not_exists, not_and]
    refine ⟨?_, ?_⟩
    · intro q hq h
      have := nestedPaths_ne_nil n rest q hq
      simp at h
      exact this h
    · exact (ih n).map (fun a b h => (List.cons.inj h).2)

theorem walk_nestedDirs (addErr : Path → Option GoError) (hadd : ∀ p, addErr p = none)
    (names : List GoString) :
    ∀ (root : GoString) (pre : Path) (w : Watcher),
      (∀ p ∈ nestedPaths root names, pre ++ p ∉ w.watches) →
      walk addErr w (pre ++ [root]) (nestedDirs root names) =
        ({ watches := w.watches ++ (nestedPaths root names).map (fun p => pre ++ p) }, none) := by
  induction names with
  | nil =>
    intro root pre w hw
    have h0 : pre ++ [root] ∉ w.watches := hw [root] (by simp [nestedPaths])
    simp [nestedDirs, walk, walkFn, Watcher.Add, hadd, h0, walkEntries, nestedPaths]
  | cons n rest ih =>
    intro root pre w hw
    have h0 : pre ++ [root] ∉ w.watches := hw [root] (by simp [nestedPaths])
    have hnext : ∀ p ∈ nestedPaths n rest,
        (pre ++ [root]) ++ p ∉ ({ watches := w.watches ++ [pre ++ [root]] } : Watcher).watches := by
      intro p hp hmem
      simp only [List.mem_append, List.mem_singleton] at hmem
      rcases hmem with hmem | hmem
      · refine hw (root :: p) ?_ (by simpa using hmem)
        simp only [nestedPaths, List.mem_cons, List.mem_map]
        exact Or.inr ⟨p, hp, rfl⟩
      · have hne := nestedPaths_ne_nil n rest p hp
        have : p = [] := by
          have := congrArg List.length hmem
          simp at this
          exact this
        exact hne this
    have hih := ih n (pre ++ [root]) { watches := w.watches ++ [pre ++ [root]] } hnext
    simp only [nestedDirs, walk, walkFn, if_true, Watcher.Add, hadd, h0, if_false, walkEntries,
      name_nestedDirs, hih, nestedPaths, List.map_cons, List.map_map]
    simp [Function.comp_def]

theorem removeEach_nodup (paths : List Path) :
    ∀ (w : Watcher), paths.Nodup → (∀ p ∈ paths, p ∈ w.watches) →
      ∃ w1, removeEach w paths = some w1 ∧
        ∀ q, q ∈ w1.watches ↔ q ∈ w.watches ∧ q ∉ paths := by
  induction paths with
  | nil =>
    intro w _ _
    exact ⟨w, rfl, by simp⟩
  | cons p rest ih =>
    intro w hnd hmem
    have hp : p ∈ w.watches := hmem p (by simp)
    rw [List.nodup_cons] at hnd
    have hrest : ∀ q ∈ rest, q ∈ ({ watches := w.watches.filter (fun q => q ≠ p) } : Watcher).watches := by
      intro q hq
      simp only [List.mem_filter, decide_eq_true_eq]
      refine ⟨hmem q (by simp [hq]), ?_⟩
      rintro rfl
      exact hnd.1 hq
    obtain ⟨w1, h1, h2⟩ := ih { watches := w.watches.filter (fun q => q ≠ p) } hnd.2 hrest
    refine ⟨w1, ?_, ?_⟩
    · simp only [removeEach, Watcher.Remove, hp, if_true]
      exact h1
    · intro q
      rw [h2 q]
      simp only [List.mem_filter, decide_eq_true_eq, List.mem_cons, not_or]
      tauto

/-- C10: when the watcher can be created and every registration succeeds, `setupWatcher`
returns a watcher whose registered paths are exactly the paths of the directories of the
tree, the root and every directory below it at any depth; no path of a file is registered
(in a tree whose directories hold distinct names, as in a file system); every directory of
the tree can be removed from the watcher without error. For a chain of nested directories
of depth `names.length` the registered paths are the `names.length + 1` directories of the
chain, and removing them one after the other succeeds each time. -/
theorem setupWatcher_registers_directories (addErr : Path → Option GoError)
    (hadd : ∀ p, addErr p = none) (tree : Node) :
    ∃ w, setupWatcher none addErr tree = some w ∧
      (∀ p, p ∈ w.watches ↔ DirAt tree p) ∧
      (DistinctNames tree → ∀ p, FileAt tree p → p ∉ w.watches) ∧
      (∀ p, DirAt tree p → (w.Remove p).2 = none) ∧
      (∀ root names, tree = nestedDirs root names →
        w.watches = nestedPaths root names ∧ w.watches.length = names.length + 1 ∧
        removeEach w (nestedPaths root names) = some { watches := [] }) := by
  have hmem : ∀ p, p ∈ (walk addErr { watches := [] } [tree.name] tree).1.watches ↔
      DirAt tree p := by
    intro p
    have := (walk_registers addErr hadd tree { watches := [] } [] p).2
    simpa using this
  refine ⟨(walk addErr { watches := [] } [tree.name] tree).1, rfl, hmem, ?_, ?_, ?_⟩
  · intro hd p hf hp
    exact FileAt_not_DirAt tree p hf hd ((hmem p).1 hp)
  · intro p hp
    have := (hmem p).2 hp
    simp [Watcher.Remove, this]
  · rintro root names rfl
    have hw := walk_nestedDirs addErr hadd names root [] { watches := [] } (by simp)
    simp only [List.nil_append, List.map_id'] at hw
    rw [name_nestedDirs]
    rw [hw]
    refine ⟨rfl, nestedPaths_length root names, ?_⟩
    obtain ⟨w1, h1, h2⟩ := removeEach_nodup (nestedPaths root names)
      { watches := nestedPaths root names } (nestedPaths_nodup root names) (fun p hp => hp)
    rw [h1]
    have : w1.watches = [] := by
      apply List.eq_nil_iff_forall_not_mem.2
      intro q hq
      have := (h2 q).1 hq
      exact this.2 this.1
    obtain ⟨ws⟩ := w1
    simp only at this
    rw [this]

/-- Witness of C10: the tree of `TestWatcherDiscoversAllDirs`, `watch_dir/dir1/dir2/dir3`. -/
theorem setupWatcher_registers_directories_witness :
    ∃ w, setupWatcher none (fun _ => none)
        (nestedDirs "watch_dir".toList ["dir1".toList, "dir2".toList, "dir3".toList]) = some w ∧
      w.watches = [["watch_dir".toList], ["watch_dir".toList, "dir1".toList],
        ["watch_dir".toList, "dir1".toList, "dir2".toList],
        ["watch_dir".toList, "dir1".toList, "dir2".toList, "dir3".toList]] ∧
      removeEach w [["watch_dir".toList], ["watch_dir".toList, "dir1".toList],
        ["watch_dir".toList, "dir1".toList, "dir2".toList],
        ["watch_dir".toList, "dir1".toList, "dir2".toList, "dir3".toList]]
        = some { watches := [] } := by
  obtain ⟨w, h1, _, _, _, h5⟩ := setupWatcher_registers_directories (fun _ => none)
    (fun _ => rfl)
    (nestedDirs "watch_dir".toList ["dir1".toList, "dir2".toList, "dir3".toList])
  exact ⟨w, h1, (h5 _ _ rfl).1, (h5 _ _ rfl).2.2⟩

end Reloadr
